import Mathlib

/-!
# Verification of the drizzle-postgres lint rules

Shallow embedding of the pattern-matching core of the
`eslint-plugin-drizzle-postgres` rules, translated from the TypeScript
sources (`src/enforce-index-naming.ts`, `src/enforce-uuid-indexes.ts`,
`src/no-select-star.ts`, `src/require-rls-enabled.ts`,
`src/require-timestamp-columns.ts`, `src/prevent-rls-bypass.ts`).

The ESTree syntax-tree fragment the rules inspect is embedded as the
inductive `Expr`; rule visitors become functions from expressions (plus,
where a rule walks `node.parent`, an explicit list of ancestor shapes)
to lists of diagnostics.  A whole-unit pass is the fold of the visitor
over the visit sequence of `CallExpression` nodes.
-/

namespace DrizzleLint

/-- Value carried by an ESTree `Literal` node. -/
inductive Lit where
  | str (s : String)
  | num (n : Int)
  | boolL (b : Bool)
  | nullL
deriving DecidableEq, Repr

/-- The `String(value)` coercion used by `getColumnName` in
`enforce-uuid-indexes.ts`. -/
def Lit.toStr : Lit → String
  | .str s => s
  | .num n => toString n
  | .boolL b => if b then "true" else "false"
  | .nullL => "null"

/-- Key of an ESTree `Property`: identifier, string literal, or other
(computed / numeric). -/
inductive PKey where
  | kid (name : String)
  | kstr (s : String)
  | kother
deriving DecidableEq, Repr

mutual
/-- The fragment of ESTree expressions the rules pattern-match on.
`member` is a non-computed MemberExpression with an `Identifier`
property; `memberOther` is any other MemberExpression. -/
inductive Expr where
  | ident (name : String)
  | lit (value : Lit)
  | template (quasis : List String)
  | member (obj : Expr) (prop : String)
  | memberOther (obj : Expr)
  | callE (callee : Expr) (args : List Expr)
  | objE (props : List PropEntry)
  | fnE (body : FnBody)
  | otherE

/-- Entry of an `ObjectExpression`: a `Property` or a spread element. -/
inductive PropEntry where
  | prop (key : PKey) (value : Expr)
  | spread

/-- Body of an arrow/function expression argument. -/
inductive FnBody where
  | exprBody (e : Expr)
  | blockBody (stmts : List BStmt)

/-- Statement inside a block body; only `ReturnStatement` is inspected. -/
inductive BStmt where
  | ret (arg : Option Expr)
  | otherStmt
end

/-- Diagnostics the embedded rules can emit (messageId plus the
interpolated data). -/
inductive Diag where
  | invalidIndexName (name : String)
  | tooManyJoins (count max : Nat)
  | useSnakeCase (name : String)
  | missingTimestamps (tableName : String)
  | missingRLS (table : String)
  | missingPolicy (table : String)
  | enforceUUIDIndexes (columnName : String)
  | noSelectStar
  | bypassDetected (method : String)
  | missingRLSComment
deriving DecidableEq, Repr

/-- The recognized table-constructor names (shared by every rule's
`isTableCall`). -/
def tableCtors : List String := ["pgTable", "mysqlTable", "sqliteTable"]

/-- The regex `/^[a-z][a-z0-9_]*$/` from `enforce-snake-case-naming.ts`. -/
def isLowerAlpha (c : Char) : Bool := 'a' ≤ c && c ≤ 'z'

/-- A character allowed after the first one in snake_case. -/
def isSnakeChar (c : Char) : Bool := isLowerAlpha c || c.isDigit || c = '_'

/-- Function `isValidSnakeCase` from `enforce-snake-case-naming.ts`. -/
def isValidSnakeCase (name : String) : Bool :=
  match name.data with
  | [] => false
  | c :: cs => isLowerAlpha c && cs.all isSnakeChar

/-- JS `x.includes(y)` on strings (substring containment). -/
def strContains (hay sub : String) : Bool :=
  hay.data.tails.any (fun t => sub.data.isPrefixOf t)

/-- JS `x.startsWith(y)` on strings, on the character lists. -/
def strStartsWith (s pre : String) : Bool :=
  pre.data.isPrefixOf s.data

/-- JS `x.endsWith(y)` on strings, on the character lists. -/
def strEndsWith (s suf : String) : Bool :=
  suf.data.isSuffixOf s.data

/-- JS `x.toLowerCase()`, on the character lists. -/
def lowerStr (s : String) : String :=
  ⟨s.data.map Char.toLower⟩

/-! ## enforce-snake-case-naming (second rule in `no-select-star.ts`) -/

/-- camelCase exceptions allowed for column keys. -/
def allowedCamelCase : List String := ["createdAt", "updatedAt"]

/-- The `CallExpression` visitor of the snake-case rule: table-name
check on the first string-literal argument, then per-column key check
over the second argument's object literal (keys that are `Identifier`s
only), with the `createdAt`/`updatedAt` exceptions. -/
def snakeCaseCheck (e : Expr) : List Diag :=
  match e with
  | .callE (.ident c) args =>
    if c ∈ tableCtors then
      let tableDiags :=
        match args.head? with
        | some (.lit (.str tn)) =>
          if !isValidSnakeCase tn then [Diag.useSnakeCase tn] else []
        | _ => []
      let colDiags :=
        match args.get? 1 with
        | some (.objE props) =>
          props.flatMap (fun p =>
            match p with
            | .prop (.kid k) _ =>
              if !isValidSnakeCase k && !(k ∈ allowedCamelCase) then
                [Diag.useSnakeCase k]
              else []
            | _ => [])
        | _ => []
      tableDiags ++ colDiags
    else []
  | _ => []

/-! ## require-timestamp-columns -/

/-- Options of `require-timestamp-columns` (`checkTables` undefined by
default, `ignoreTables` defaulting to `[]`). -/
structure TSOptions where
  checkTables : Option (List String)
  ignoreTables : List String
deriving DecidableEq, Repr

/-- The default options: no `checkTables` filter, empty ignore list. -/
def defaultTSOptions : TSOptions := ⟨none, []⟩

/-- The column keys of the object literal, taking `Identifier` and
string-literal keys (other properties are filtered out). -/
def columnKeysOf (props : List PropEntry) : List String :=
  props.filterMap (fun p =>
    match p with
    | .prop (.kid n) _ => some n
    | .prop (.kstr s) _ => some s
    | _ => none)

/-- The `CallExpression` visitor of `require-timestamp-columns`:
on a table call whose first argument is a string literal, unless the
table is filtered out by the options, inspect the second argument when
it is an object literal and report iff a `created_at`/`createdAt` key
or an `updated_at`/`updatedAt` key is missing. -/
def tsCheck (opts : TSOptions) (e : Expr) : List Diag :=
  match e with
  | .callE (.ident c) args =>
    if c ∈ tableCtors then
      match args.head? with
      | some (.lit (.str tn)) =>
        if tn ∈ opts.ignoreTables then []
        else if (match opts.checkTables with
                 | some l => !(tn ∈ l)
                 | none => false) then []
        else
          match args.get? 1 with
          | some (.objE props) =>
            let columnNames := columnKeysOf props
            let hasCreatedAt :=
              columnNames.any (fun n => n = "created_at" || n = "createdAt")
            let hasUpdatedAt :=
              columnNames.any (fun n => n = "updated_at" || n = "updatedAt")
            if !hasCreatedAt || !hasUpdatedAt then
              [Diag.missingTimestamps tn]
            else []
          | _ => []
      | _ => []
    else []
  | _ => []

/-- Whole-unit run of the timestamp rule over the visit sequence of
call expressions: the rule keeps no state, so the pass is a `flatMap`. -/
def tsRun (opts : TSOptions) (unit : List Expr) : List Diag :=
  unit.flatMap (tsCheck opts)

/-! ## enforce-index-naming (first rule in `enforce-index-naming.ts`) -/

/-- The regular shape `/^(idx|uq|uk)_[a-z][a-z0-9_]*(_[a-z][a-z0-9_]*)*$/`.
Because `[a-z0-9_]` already contains the underscore, the starred group
adds nothing to the language: a name matches iff it is one of the three
prefixes, an underscore, then a lowercase letter followed by lowercase
alphanumerics/underscores. -/
def validIndexName (name : String) : Bool :=
  ["idx", "uq", "uk"].any (fun p =>
    strStartsWith name (p ++ "_") &&
    (match name.data.drop (p.length + 1) with
     | [] => false
     | c :: cs => isLowerAlpha c && cs.all isSnakeChar))

/-- Mutable state of the index-naming rule: the most recently seen
table name. -/
structure INState where
  currentTableName : Option String
  diags : List Diag
deriving DecidableEq, Repr

/-- The `CallExpression` visitor of `enforce-index-naming`: first track
the table name from `pgTable`/`mysqlTable`/`sqliteTable` calls, then on
`index`/`uniqueIndex`/`unique` calls with a string-literal first
argument apply the generic-shape gate and, when it passes and a table
name is known, the `idx_<table>_` / `uq_<table>_` prefix gate. -/
def indexNamingVisit (s : INState) (e : Expr) : INState :=
  let s :=
    match e with
    | .callE (.ident c) args =>
      if c ∈ tableCtors then
        match args.head? with
        | some (.lit (.str tn)) => { s with currentTableName := some tn }
        | _ => s
      else s
    | _ => s
  match e with
  | .callE (.ident c) args =>
    if c = "index" || c = "uniqueIndex" || c = "unique" then
      match args.head? with
      | some (.lit (.str indexName)) =>
        if !validIndexName indexName then
          { s with diags := s.diags ++ [Diag.invalidIndexName indexName] }
        else
          match s.currentTableName with
          | some t =>
            let expectedPre := (if c = "index" then "idx" else "uq") ++ "_" ++ t ++ "_"
            if !strStartsWith indexName expectedPre then
              { s with diags := s.diags ++ [Diag.invalidIndexName indexName] }
            else s
          | none => s
      | _ => s
    else s
  | _ => s

/-- Whole-unit run of the index-naming rule over the visit sequence. -/
def indexNamingRun (unit : List Expr) : List Diag :=
  (unit.foldl indexNamingVisit ⟨none, []⟩).diags

/-! ## enforce-uuid-indexes -/

/-- Function `isUUIDColumn`: a call to the `uuid` constructor, or to
`varchar`/`text`/`char` whose first argument is a literal whose
lowercased string form contains `uuid`, ends with `_id`, or equals
`id`. -/
def isUUIDColumn (e : Expr) : Bool :=
  match e with
  | .callE (.ident name) args =>
    if name = "uuid" then true
    else if name ∈ ["varchar", "text", "char"] then
      match args.head? with
      | some (.lit v) =>
        let columnName := lowerStr v.toStr
        strContains columnName "uuid" || strEndsWith columnName "_id" ||
          columnName = "id"
      | _ => false
    else false
  | _ => false

/-- Function `hasColumnLevelIndex`: walk the method-chain spine of a column
value looking for a `.primaryKey()` or `.unique()` segment. -/
def hasColumnLevelIndex : Expr → Bool
  | .callE (.member obj p) _ =>
    if p ∈ ["primaryKey", "unique"] then true else hasColumnLevelIndex obj
  | .callE (.memberOther obj) _ => hasColumnLevelIndex obj
  | _ => false

/-- Function `getColumnName`: the string form of the first argument when it is a
literal, else `none`. -/
def getColumnName : Expr → Option String
  | .callE _ args =>
    match args.head? with
    | some (.lit v) => some v.toStr
    | _ => none
  | _ => none

/-- The `while` loop inside `processIndexObject`: walk down a call
chain looking for a `.on(...)` segment and collect the `Identifier`
property names of member-expression arguments of the first one found. -/
def onChainCollect : Expr → List String
  | .callE (.member obj p) args =>
    if p = "on" then
      args.filterMap (fun a =>
        match a with
        | .member _ q => some q
        | _ => none)
    else onChainCollect obj
  | .callE (.memberOther obj) _ => onChainCollect obj
  | _ => []

/-- Function `processIndexObject`: collect referenced property names from every
property of the index object literal whose value is a call chain. -/
def processIndexObject (props : List PropEntry) : List String :=
  props.flatMap (fun p =>
    match p with
    | .prop _ (.callE c as) => onChainCollect (.callE c as)
    | _ => [])

/-- Function `extractIndexedProperties`: when the third argument of the table
call is a function whose body is an object literal (directly or behind
the first `return` of a block body), process that literal. -/
def extractIndexedProperties (e : Expr) : List String :=
  match e with
  | .callE _ args =>
    match args.get? 2 with
    | some (.fnE body) =>
      match body with
      | .exprBody (.objE props) => processIndexObject props
      | .exprBody _ => []
      | .blockBody stmts =>
        match stmts.find? (fun st =>
          match st with
          | .ret _ => true
          | _ => false) with
        | some (.ret (some (.objE props))) => processIndexObject props
        | _ => []
    | _ => []
  | _ => []

/-- The `while` loop unwrapping a column value to its base constructor
call: step from `call(member(obj, _), _)` to `obj` while `obj` is
itself a call. -/
def unwrapBase : Expr → Expr
  | .callE (.member (.callE c as) _) _ => unwrapBase (.callE c as)
  | .callE (.memberOther (.callE c as)) _ => unwrapBase (.callE c as)
  | e => e

/-- The `CallExpression` visitor of `enforce-uuid-indexes`: on a table
call, collect table-level indexed property names, then for each column
property (identifier key, call value) whose base call is UUID-like,
report the declared column name unless the value chain carries a
column-level `primaryKey`/`unique` or the property name is covered by
a table-level index, or the base call has no literal first argument. -/
def uuidIndexCheck (e : Expr) : List Diag :=
  match e with
  | .callE (.ident c) args =>
    if c ∈ tableCtors then
      let tableIndexedProperties := extractIndexedProperties (.callE (.ident c) args)
      match args.get? 1 with
      | some (.objE props) =>
        props.flatMap (fun p =>
          match p with
          | .prop (.kid propertyName) (.callE cc aa) =>
            let baseCall := unwrapBase (.callE cc aa)
            if isUUIDColumn baseCall then
              match getColumnName baseCall with
              | some columnName =>
                if !hasColumnLevelIndex (.callE cc aa) &&
                   !(propertyName ∈ tableIndexedProperties) then
                  [Diag.enforceUUIDIndexes columnName]
                else []
              | none => []
            else []
          | _ => [])
      | _ => []
    else []
  | _ => []

/-! ## require-rls-enabled -/

/-- Options of `require-rls-enabled`. -/
structure RLSOptions where
  sensitiveTables : List String
  sensitivePatterns : List String
deriving DecidableEq, Repr

/-- Function `isSensitiveTable`: exact membership in the explicit list, else a
case-insensitive substring match against some pattern. -/
def isSensitiveTable (o : RLSOptions) (tableName : String) : Bool :=
  let lowerName := lowerStr tableName
  if tableName ∈ o.sensitiveTables then true
  else o.sensitivePatterns.any (fun p => strContains lowerName (lowerStr p))

/-- Abstraction of the two regular-expression extractions on the
reconstructed text of a `sql` template literal
(`/ALTER\s+TABLE\s+["']?(\w+)["']?\s+ENABLE\s+ROW\s+LEVEL\s+SECURITY/i`
and `/CREATE\s+POLICY\s+.*?\s+ON\s+["']?(\w+)["']?/i`): each returns
the captured table name when the statement matches. -/
structure RLSExtract where
  rlsOf : String → Option String
  policyOf : String → Option String

/-- Insertion into a JS `Map`/`Set` keyed by strings: a new key is
appended, an existing key keeps its original position. -/
def mapInsert (l : List String) (k : String) : List String :=
  if k ∈ l then l else l ++ [k]

/-- Collected state of `require-rls-enabled` during the forward pass. -/
structure RLSState where
  tablesFound : List String
  tablesWithRLS : List String
  tablesWithPolicies : List String
deriving DecidableEq, Repr

/-- Classification of a visited call as a table declaration: callee is
a table-constructor identifier and the first argument a string literal
(the table name, which is returned). -/
def tableNameOf (e : Expr) : Option String :=
  match e with
  | .callE (.ident c) args =>
    if c ∈ tableCtors then
      match args.head? with
      | some (.lit (.str tn)) => some tn
      | _ => none
    else none
  | _ => none

/-- Classification of a visited call as a raw statement: callee is the
identifier `sql` and the first argument a template literal, whose
static text is the concatenation of its quasis. -/
def sqlTextOf (e : Expr) : Option String :=
  match e with
  | .callE (.ident c) args =>
    if c = "sql" then
      match args.head? with
      | some (.template quasis) => some (String.join quasis)
      | _ => none
    else none
  | _ => none

/-- The `CallExpression` visitor of `require-rls-enabled`: record table
declarations with a string-literal name, and on `sql` calls with a
template-literal argument, feed the concatenated quasis to the two
extractors and record any captured table names. -/
def rlsVisit (ex : RLSExtract) (s : RLSState) (e : Expr) : RLSState :=
  let s :=
    match tableNameOf e with
    | some tn => { s with tablesFound := mapInsert s.tablesFound tn }
    | none => s
  match sqlTextOf e with
  | some sqlContent =>
    let s :=
      match ex.rlsOf sqlContent with
      | some t => { s with tablesWithRLS := mapInsert s.tablesWithRLS t }
      | none => s
    match ex.policyOf sqlContent with
    | some t =>
      { s with tablesWithPolicies := mapInsert s.tablesWithPolicies t }
    | none => s
  | none => s

/-- The `Program:exit` finalize pass: for every declared table that is
sensitive, report `missingRLS` when it is not in the RLS set, else
`missingPolicy` when it is not in the policy set. -/
def rlsFinalize (o : RLSOptions) (s : RLSState) : List Diag :=
  s.tablesFound.flatMap (fun tableName =>
    if isSensitiveTable o tableName then
      if !(tableName ∈ s.tablesWithRLS) then [Diag.missingRLS tableName]
      else if !(tableName ∈ s.tablesWithPolicies) then
        [Diag.missingPolicy tableName]
      else []
    else [])

/-- Whole-unit run of `require-rls-enabled`: fold the collect visitor
over the visit sequence, then finalize. -/
def rlsRun (o : RLSOptions) (ex : RLSExtract) (unit : List Expr) : List Diag :=
  rlsFinalize o (unit.foldl (rlsVisit ex) ⟨[], [], []⟩)

/-! ## prevent-rls-bypass -/

/-- Whitespace characters recognized by the regex `\s` (ASCII part). -/
def isWS (c : Char) : Bool :=
  c = ' ' || c = '\t' || c = '\n' || c = '\r' || c = '\x0b' || c = '\x0c'

/-- Case-insensitive literal-prefix match, returning the rest of the
input on success. -/
def dropCI : List Char → List Char → Option (List Char)
  | [], s => some s
  | _, [] => none
  | c :: cs, x :: xs => if c.toLower = x.toLower then dropCI cs xs else none

/-- Match a sequence of words separated by `\s+` at the start of the
input (case-insensitive). -/
def matchSeqAt : List (List Char) → List Char → Bool
  | [], _ => true
  | w :: rest, s =>
    match dropCI w s with
    | none => false
    | some s' =>
      match rest with
      | [] => true
      | _ :: _ =>
        match s' with
        | [] => false
        | c :: s'' =>
          if isWS c then matchSeqAt rest (s''.dropWhile isWS) else false

/-- JS `pattern.test(value)`: the word sequence matches at some position
of the input. -/
def patTest (ws : List (List Char)) (s : List Char) : Bool :=
  s.tails.any (matchSeqAt ws)

/-- The fixed justification vocabulary of `prevent-rls-bypass`
(`/RLS\s+bypass/i`, `/security/i`, `/admin/i`, `/service\s+role/i`,
`/system\s+operation/i`, `/migration/i`, `/background\s+job/i`,
`/cron/i`), as word sequences joined by `\s+`. -/
def validBypassReasons : List (List (List Char)) :=
  [[['R', 'L', 'S'], ['b', 'y', 'p', 'a', 's', 's']],
   [['s', 'e', 'c', 'u', 'r', 'i', 't', 'y']],
   [['a', 'd', 'm', 'i', 'n']],
   [['s', 'e', 'r', 'v', 'i', 'c', 'e'], ['r', 'o', 'l', 'e']],
   [['s', 'y', 's', 't', 'e', 'm'], ['o', 'p', 'e', 'r', 'a', 't', 'i', 'o', 'n']],
   [['m', 'i', 'g', 'r', 'a', 't', 'i', 'o', 'n']],
   [['b', 'a', 'c', 'k', 'g', 'r', 'o', 'u', 'n', 'd'], ['j', 'o', 'b']],
   [['c', 'r', 'o', 'n']]]

/-- Function `hasValidBypassComment`: some comment lexically before the node
matches some justification pattern. -/
def hasValidBypassComment (comments : List String) : Bool :=
  comments.any (fun comment =>
    validBypassReasons.any (fun pat => patTest pat comment.data))

/-- The bypass-indicator property names. -/
def bypassIndicators : List String :=
  ["serviceRole", "adminClient", "serviceClient", "bypassRLS"]

/-- The `MemberExpression` visitor of `prevent-rls-bypass`, with the
comments lexically preceding the node passed explicitly: the
`<expr>.rls().bypass` shape is reported as `missingRLSComment` unless a
justification comment precedes it; a bypass-indicator property access
is reported as `bypassDetected` (with no comment consultation). -/
def bypassMemberVisit (comments : List String) (e : Expr) : List Diag :=
  match e with
  | .member obj p =>
    let rlsBypassDiags :=
      if p = "bypass" &&
         (match obj with
          | .callE (.member _ q) _ => q = "rls"
          | _ => false) then
        if !hasValidBypassComment comments then [Diag.missingRLSComment]
        else []
      else []
    let indicatorDiags :=
      if p ∈ bypassIndicators then [Diag.bypassDetected p] else []
    rlsBypassDiags ++ indicatorDiags
  | _ => []

/-! ## Ancestor shapes for the parent-pointer walks

`limit-join-complexity` and `no-select-star` walk the `parent`
back-references of the triggering node.  The information these walks
consume from each ancestor is only its node type and, for a
`CallExpression`, whether its callee is a `MemberExpression` with an
`Identifier` property and which method name that is.  An ancestor chain
is therefore embedded as a list of `ANode` shapes, innermost ancestor
(the node's direct parent) first. -/

/-- Shape of one ancestor node as consumed by the upward walks. -/
inductive ANode where
  | callM (method : String)
  | callO
  | memberN (prop : String)
  | otherN
deriving DecidableEq, Repr

/-- The join verbs. -/
def joinVerbs : List String := ["leftJoin", "innerJoin", "rightJoin", "fullJoin"]

/-- The `while (current)` loop of `limit-join-complexity`, acting on
the ancestor list of the triggering join call (direct parent first):
count every ancestor `CallExpression` whose callee property is a join
verb; step from a `MemberExpression` to its parent when that parent is
a `CallExpression` (else stop), and from a `CallExpression` to its
grandparent when the parent is a `MemberExpression` under a
`CallExpression`, else to its parent. -/
def joinWalk : List ANode → Nat → Nat
  | [], count => count
  | .otherN :: _, count => count
  | .memberN _ :: .callM m :: rest, count => joinWalk (.callM m :: rest) count
  | .memberN _ :: .callO :: rest, count => joinWalk (.callO :: rest) count
  | .memberN _ :: _, count => count
  | .callM m :: .memberN _ :: .callM q :: r2, count =>
    joinWalk (.callM q :: r2) (if m ∈ joinVerbs then count + 1 else count)
  | .callM m :: .memberN _ :: .callO :: r2, count =>
    joinWalk (.callO :: r2) (if m ∈ joinVerbs then count + 1 else count)
  | .callM m :: rest, count =>
    joinWalk rest (if m ∈ joinVerbs then count + 1 else count)
  | .callO :: .memberN _ :: .callM q :: r2, count => joinWalk (.callM q :: r2) count
  | .callO :: .memberN _ :: .callO :: r2, count => joinWalk (.callO :: r2) count
  | .callO :: rest, count => joinWalk rest count

/-- Ancestor list of the call node of a chain segment inside a fluent
chain: `above` are the method names of the segments wrapping it, from
the next outer one to the chain tip; `outer` is whatever sits above the
whole chain.  The direct parent of a segment's call is the
`MemberExpression` of the next segment, whose parent is that segment's
call, and so on. -/
def segAncestors (above : List String) (outer : List ANode) : List ANode :=
  match above with
  | [] => outer
  | m :: rest => .memberN m :: .callM m :: segAncestors rest outer

/-- The whole `limit-join-complexity` rule over one fluent chain with
segment method names `segs` (root first) and context `outer` above the
chain: the `CallExpression` handler fires at every join segment, seeds
the count at 1, runs `joinWalk` on that segment's ancestors, and
reports when the count exceeds `maxJoins`.  Nodes are visited in
pre-order, so outer (tip-ward) segments report first. -/
def chainJoinDiags (maxJoins : Nat) (segs : List String) (outer : List ANode) :
    List Diag :=
  match segs with
  | [] => []
  | m :: rest =>
    chainJoinDiags maxJoins rest outer ++
      (if m ∈ joinVerbs then
        let count := joinWalk (segAncestors rest outer) 1
        if count > maxJoins then [Diag.tooManyJoins count maxJoins] else []
      else [])

/-! ## no-select-star (first rule in `no-select-star.ts`) -/

/-- The method names that mark a chain as a database query in
`no-select-star.ts` (note: `rightJoin` and `fullJoin` are absent). -/
def queryVerbsCode : List String :=
  ["from", "where", "orderBy", "limit", "offset", "leftJoin", "innerJoin"]

/-- The `while (current && current.type === "CallExpression")` scan of
`no-select-star`, acting on the list headed by the current call: report
a hit when the callee property name is a query verb; step to the parent
when it is a call, else to the grandparent when the parent is a member
expression under a call, else stop. -/
def selectScan : List ANode → Bool
  | .callM m :: .callM q :: rest =>
    if m ∈ queryVerbsCode then true else selectScan (.callM q :: rest)
  | .callM m :: .callO :: rest =>
    if m ∈ queryVerbsCode then true else selectScan (.callO :: rest)
  | .callM m :: .memberN _ :: .callM q :: r2 =>
    if m ∈ queryVerbsCode then true else selectScan (.callM q :: r2)
  | .callM m :: .memberN _ :: .callO :: r2 =>
    if m ∈ queryVerbsCode then true else selectScan (.callO :: r2)
  | .callM m :: _ => m ∈ queryVerbsCode
  | .callO :: .callM q :: rest => selectScan (.callM q :: rest)
  | .callO :: .callO :: rest => selectScan (.callO :: rest)
  | .callO :: .memberN _ :: .callM q :: r2 => selectScan (.callM q :: r2)
  | .callO :: .memberN _ :: .callO :: r2 => selectScan (.callO :: r2)
  | _ => false

/-- Flag `hasQueryMethod` for a bare `.select()` call: first skip the
member-expression wrappers directly above the node, then, when a call
is reached, run the scan from it. -/
def selectHasQuery (anc : List ANode) : Bool :=
  match anc.dropWhile (fun a =>
    match a with
    | .memberN _ => true
    | _ => false) with
  | .callM m :: rest => selectScan (.callM m :: rest)
  | .callO :: rest => selectScan (.callO :: rest)
  | _ => false

/-- The `CallExpression` visitor of `no-select-star`: a `.select()`
member call with zero arguments is reported iff the upward scan finds a
query verb. -/
def noSelectStarVisit (e : Expr) (anc : List ANode) : List Diag :=
  match e with
  | .callE (.member _ p) args =>
    if p = "select" && args.isEmpty then
      if selectHasQuery anc then [Diag.noSelectStar] else []
    else []
  | _ => []

/-! ## Derived collectors

Straightforward per-unit projections of the classifier, used to state
properties of the two-phase `require-rls-enabled` pass. -/

/-- The table names declared in a unit, in visit order. -/
def tableNamesOf (unit : List Expr) : List String :=
  unit.filterMap tableNameOf

/-- The table names captured by the enable-row-security extractor. -/
def rlsNamesOf (ex : RLSExtract) (unit : List Expr) : List String :=
  unit.filterMap (fun e => (sqlTextOf e).bind ex.rlsOf)

/-- The table names captured by the create-policy extractor. -/
def policyNamesOf (ex : RLSExtract) (unit : List Expr) : List String :=
  unit.filterMap (fun e => (sqlTextOf e).bind ex.policyOf)

/-- A diagnostic of the access-control rule concerning table `tn`. -/
def diagAbout (tn : String) (d : Diag) : Bool :=
  match d with
  | .missingRLS t => t = tn
  | .missingPolicy t => t = tn
  | _ => false

/-- The finalize verdict for one declared table, given the two captured
sets: exactly the per-table body of `rlsFinalize`. -/
def rlsVerdict (o : RLSOptions) (rls policies : List String) (tableName : String) :
    List Diag :=
  if isSensitiveTable o tableName then
    if !(tableName ∈ rls) then [Diag.missingRLS tableName]
    else if !(tableName ∈ policies) then [Diag.missingPolicy tableName]
    else []
  else []

/-! # Theorems -/

/-- C1: The claim states that a fluent chain with `N` join segments
and `N > maxJoins` yields exactly one diagnostic reporting the count
`N`, regardless of which segment triggers the check.  The code walks
only the `parent` direction, so each join segment counts just itself
and the joins wrapping it: on the chain
`db.select().from(t).leftJoin(a).leftJoin(b).leftJoin(c).leftJoin(d).leftJoin(e)`
with `maxJoins = 3`, the rule fires twice — the second-innermost join
counts 4 and the innermost counts 5 — instead of once with count 5. -/
theorem joinComplexity_fiveJoins_twoDiagnostics :
    chainJoinDiags 3
      ["select", "from", "leftJoin", "leftJoin", "leftJoin", "leftJoin", "leftJoin"]
      [ANode.otherN] =
      [Diag.tooManyJoins 4 3, Diag.tooManyJoins 5 3] := by
  decide

/-- C2: The claim states that a bypass-indicator property access
preceded by a comment containing "migration" is not reported.  The
code's indicator branch reports unconditionally, never consulting
`hasValidBypassComment`: with the preceding comment
`" migration: backfill script"` (which the comment matcher accepts),
`client.serviceRole` is still reported. -/
theorem bypassIndicator_reported_despite_migration_comment :
    bypassMemberVisit [" migration: backfill script"]
        (.member (.ident "client") "serviceRole") =
        [Diag.bypassDetected "serviceRole"] ∧
      hasValidBypassComment [" migration: backfill script"] = true := by
  constructor
  · decide
  · decide

/-- C10: A UUID-typed column whose base constructor call has no
string-literal first argument — `uuid()` with no arguments, or with a
non-literal argument — is never reported by the uuid-index check, even
with no column-level `primaryKey`/`unique` and no covering table-level
index (`getColumnName` returns nothing, and the report is guarded on a
present column name). -/
theorem uuid_unnamed_column_never_reported (tn p : String) :
    uuidIndexCheck (.callE (.ident "pgTable")
        [.lit (.str tn), .objE [.prop (.kid p) (.callE (.ident "uuid") [])]]) =
        [] ∧
      uuidIndexCheck (.callE (.ident "pgTable")
        [.lit (.str tn),
         .objE [.prop (.kid p) (.callE (.ident "uuid") [.objE []])]]) = [] := by
  constructor
  · simp [uuidIndexCheck, extractIndexedProperties, unwrapBase, isUUIDColumn,
      getColumnName, tableCtors]
  · simp [uuidIndexCheck, extractIndexedProperties, unwrapBase, isUUIDColumn,
      getColumnName, tableCtors]

/-- C3: The uuid-index check cross-references table-level indexes by
the column's property name (the object key), not its declared name: for
any property name `p` and declared name `d` (in particular `userId` /
`user_id`), a UUID column `{ p: uuid(d) }` covered by an index declared
via `.on(t.p)` in the third-argument builder is never flagged; with the
builder removed the column is flagged, and the diagnostic carries the
declared name `d`. -/
theorem uuidIndex_crossref_by_property_name (tn p d iname tref : String) :
    uuidIndexCheck (.callE (.ident "pgTable")
        [.lit (.str tn),
         .objE [.prop (.kid p) (.callE (.ident "uuid") [.lit (.str d)])],
         .fnE (.exprBody (.objE [.prop (.kid "idx")
           (.callE (.member (.callE (.ident "index") [.lit (.str iname)]) "on")
             [.member (.ident tref) p])]))]) = [] ∧
      uuidIndexCheck (.callE (.ident "pgTable")
        [.lit (.str tn),
         .objE [.prop (.kid p) (.callE (.ident "uuid") [.lit (.str d)])]]) =
        [Diag.enforceUUIDIndexes d] := by
  constructor
  · simp [uuidIndexCheck, extractIndexedProperties, processIndexObject,
      onChainCollect, unwrapBase, isUUIDColumn, getColumnName,
      hasColumnLevelIndex, tableCtors, Lit.toStr]
  · simp [uuidIndexCheck, extractIndexedProperties, processIndexObject,
      onChainCollect, unwrapBase, isUUIDColumn, getColumnName,
      hasColumnLevelIndex, tableCtors, Lit.toStr]

/-- C4 counterexample: The claim lists `rightJoin` and `fullJoin`
among the query-context verbs that make a bare `.select()` reportable.
The code's verb list is `["from","where","orderBy","limit","offset",
"leftJoin","innerJoin"]`: on `db.select().rightJoin(a, b)` — a chain
whose only query-context verb is `rightJoin` — no diagnostic is
emitted, contradicting the claim. -/
theorem selectStar_rightJoin_only_not_reported :
    noSelectStarVisit (.callE (.member (.ident "db") "select") [])
      (segAncestors ["rightJoin"] [ANode.otherN]) = [] := by
  decide

/-- C4 amended: A `.select()` call with zero arguments is
reported iff some segment after it in its fluent chain has a method
name among `from`, `where`, `orderBy`, `limit`, `offset`, `leftJoin`,
`innerJoin` (`rightJoin`/`fullJoin` chains are not recognized). -/
theorem selectStar_reported_iff_code_verb (base : Expr) (above : List String) :
    noSelectStarVisit (.callE (.member base "select") [])
        (segAncestors above [ANode.otherN]) =
      (if above.any (fun m => m ∈ queryVerbsCode) then [Diag.noSelectStar]
       else []) := by
  have key : ∀ (rest : List String) (m : String),
      selectScan (.callM m :: segAncestors rest [ANode.otherN]) =
        (decide (m ∈ queryVerbsCode) ||
          rest.any (fun q => decide (q ∈ queryVerbsCode))) := by
    intro rest
    induction rest with
    | nil => intro m; simp [segAncestors, selectScan]
    | cons q rest ih =>
      intro m
      simp only [segAncestors, selectScan, ih q, List.any_cons]
      by_cases hm : m ∈ queryVerbsCode <;> simp [hm]
  match above with
  | [] =>
    simp [noSelectStarVisit, selectHasQuery, segAncestors]
  | m :: rest =>
    simp [noSelectStarVisit, selectHasQuery, segAncestors,
      List.dropWhile_cons, key rest m, List.any_cons]

/-- C7 counterexample: The claim states the snake-case check
evaluates columns against the declared name (the string literal).  On
`pgTable('users', { userId: text('user_id') })` the declared name
`user_id` is valid snake_case, yet the code flags the column and the
diagnostic carries the property key `userId`. -/
theorem snakeCase_flags_snake_declared_name :
    snakeCaseCheck (.callE (.ident "pgTable")
        [.lit (.str "users"),
         .objE [.prop (.kid "userId")
           (.callE (.ident "text") [.lit (.str "user_id")])]]) =
      [Diag.useSnakeCase "userId"] := by
  decide

/-- C7 amended: The snake-case check evaluates each column
against the property key (the object key), not the declared name: the
column's value — hence its declared name — is irrelevant (`v` is
arbitrary below), a column is flagged iff its key is not snake_case and
not a `createdAt`/`updatedAt` exception, and the diagnostic carries the
key.  The table-name half still uses the declared string literal. -/
theorem snakeCase_checks_property_key (tn k : String) (v : Expr) :
    snakeCaseCheck (.callE (.ident "pgTable")
        [.lit (.str tn), .objE [.prop (.kid k) v]]) =
      (if !isValidSnakeCase tn then [Diag.useSnakeCase tn] else []) ++
        (if !isValidSnakeCase k && !(k ∈ allowedCamelCase) then
          [Diag.useSnakeCase k]
        else []) := by
  simp only [snakeCaseCheck, tableCtors]
  norm_num [List.flatMap_cons, List.flatMap_nil]

/-- C8: For an `index`/`uniqueIndex`/`unique` call with a
string-literal first argument, the check applies two gates sharing the
one message kind: if the name fails the generic
`{idx|uq|uk}_segment(_segment)*` shape, one diagnostic is appended; if
it passes and no table has been seen, nothing is appended; if it passes
and a table `t` has been seen, one diagnostic is appended exactly when
the name does not start with `idx_<t>_` (for `index`) or `uq_<t>_`
(for `uniqueIndex`/`unique`). -/
theorem indexNaming_two_gates (s : INState) (c nm : String) (args : List Expr)
    (hc : c = "index" ∨ c = "uniqueIndex" ∨ c = "unique")
    (hargs : args.head? = some (.lit (.str nm))) :
    (¬ validIndexName nm →
      (indexNamingVisit s (.callE (.ident c) args)).diags =
        s.diags ++ [Diag.invalidIndexName nm]) ∧
    (validIndexName nm → s.currentTableName = none →
      (indexNamingVisit s (.callE (.ident c) args)).diags = s.diags) ∧
    (∀ t, validIndexName nm → s.currentTableName = some t →
      (indexNamingVisit s (.callE (.ident c) args)).diags =
        s.diags ++
          (if strStartsWith nm
              ((if c = "index" then "idx" else "uq") ++ "_" ++ t ++ "_") then
            []
          else [Diag.invalidIndexName nm])) := by
  have hne : ¬ (c ∈ tableCtors) := by
    rcases hc with h | h | h <;> subst h <;> decide
  have hck : (c = "index" || c = "uniqueIndex" || c = "unique") = true := by
    rcases hc with h | h | h <;> subst h <;> simp
  refine ⟨?_, ?_, ?_⟩
  · intro hv
    simp [indexNamingVisit, hne, hck, hargs, hv]
  · intro hv hnone
    simp [indexNamingVisit, hne, hck, hargs, hv, hnone]
  · intro t hv hsome
    by_cases hS : strStartsWith nm ((if c = "index" then "idx" else "uq") ++ "_" ++ t ++ "_")
    · simp [indexNamingVisit, hne, hck, hargs, hv, hsome, hS]
    · simp [indexNamingVisit, hne, hck, hargs, hv, hsome, hS]

/-- Witness for C8: applying the two-gate characterization at the
concrete state `{ currentTableName := some "users" }` and the call
`index('idx_users_email')` — both gates pass, no diagnostic. -/
theorem indexNaming_two_gates_witness :
    (indexNamingVisit ⟨some "users", []⟩
      (.callE (.ident "index") [.lit (.str "idx_users_email")])).diags = [] := by
  have h := (indexNaming_two_gates ⟨some "users", []⟩ "index" "idx_users_email"
      [.lit (.str "idx_users_email")] (Or.inl rfl) rfl).2.2 "users" (by decide) rfl
  rw [h]
  decide

/-- C9: When a table call's second argument is absent or not an
object literal, the timestamp check emits nothing for that call and the
pass over the rest of the unit is unaffected (the occasion is skipped,
never aborting the unit); when the object literal is present, a single
diagnostic is emitted iff the column keys lack `created_at`/`createdAt`
or lack `updated_at`/`updatedAt`. -/
theorem timestamp_skip_and_report :
    (∀ (pre post : List Expr) (c : String) (args : List Expr),
      (∀ props, args.get? 1 ≠ some (.objE props)) →
      tsRun defaultTSOptions (pre ++ (.callE (.ident c) args) :: post) =
        tsRun defaultTSOptions pre ++ tsRun defaultTSOptions post) ∧
    (∀ (tn : String) (props : List PropEntry),
      tsCheck defaultTSOptions
          (.callE (.ident "pgTable") [.lit (.str tn), .objE props]) =
        if !((columnKeysOf props).any (fun n => n = "created_at" || n = "createdAt")) ||
            !((columnKeysOf props).any (fun n => n = "updated_at" || n = "updatedAt")) then
          [Diag.missingTimestamps tn]
        else []) := by
  constructor
  · have hskip : ∀ (c : String) (args : List Expr),
        (∀ props, args.get? 1 ≠ some (.objE props)) →
        tsCheck defaultTSOptions (.callE (.ident c) args) = [] := by
      intro c args h
      simp only [tsCheck]
      by_cases hct : c ∈ tableCtors
      · simp only [hct, if_true]
        cases hhd : args.head? with
        | none => simp
        | some a =>
          cases a with
          | lit v =>
            cases v with
            | str tn =>
              simp only [defaultTSOptions, List.not_mem_nil, if_false]
              cases hget : args.get? 1 with
              | none => simp
              | some b =>
                cases b with
                | objE ps => exact absurd hget (h ps)
                | ident _ => simp
                | lit _ => simp
                | template _ => simp
                | member _ _ => simp
                | memberOther _ => simp
                | callE _ _ => simp
                | fnE _ => simp
                | otherE => simp
            | num _ => simp
            | boolL _ => simp
            | nullL => simp
          | ident _ => simp
          | template _ => simp
          | member _ _ => simp
          | memberOther _ => simp
          | callE _ _ => simp
          | objE _ => simp
          | fnE _ => simp
          | otherE => simp
      · simp [hct]
    intro pre post c args h
    simp [tsRun, List.flatMap_append, hskip c args h]
  · intro tn props
    simp [tsCheck, defaultTSOptions, tableCtors]

/-- Witness for C9: on a unit with a timestamp-lacking `accounts` table
followed by a table call with no second argument, the skip-and-continue
branch of the theorem yields exactly the one diagnostic for
`accounts`. -/
theorem timestamp_skip_and_report_witness :
    tsRun defaultTSOptions
        [.callE (.ident "pgTable") [.lit (.str "accounts"), .objE []],
         .callE (.ident "pgTable") [.lit (.str "misc")]] =
      [Diag.missingTimestamps "accounts"] := by
  have h := timestamp_skip_and_report.1
      [.callE (.ident "pgTable") [.lit (.str "accounts"), .objE []]] []
      "pgTable" [.lit (.str "misc")] (by intro props hcontra; simp at hcontra)
  exact h.trans (by decide)

/-! ### Helper lemmas for the two-phase access-control pass -/

theorem mem_mapInsert (l : List String) (k x : String) :
    x ∈ mapInsert l k ↔ x ∈ l ∨ x = k := by
  unfold mapInsert
  by_cases h : k ∈ l
  · simp only [h, if_true]
    constructor
    · exact Or.inl
    · rintro (hx | rfl)
      · exact hx
      · exact h
  · simp [h]

theorem nodup_mapInsert (l : List String) (k : String) (h : l.Nodup) :
    (mapInsert l k).Nodup := by
  unfold mapInsert
  by_cases hk : k ∈ l
  · simpa [hk] using h
  · simp [hk, List.nodup_append, h, List.disjoint_singleton]

theorem mem_foldl_mapInsert :
    ∀ (names l : List String) (x : String),
      x ∈ names.foldl mapInsert l ↔ x ∈ l ∨ x ∈ names := by
  intro names
  induction names with
  | nil => simp
  | cons n rest ih =>
    intro l x
    simp only [List.foldl_cons, ih, mem_mapInsert, List.mem_cons]
    tauto

theorem nodup_foldl_mapInsert :
    ∀ (names l : List String), l.Nodup → (names.foldl mapInsert l).Nodup := by
  intro names
  induction names with
  | nil => intro l h; exact h
  | cons n rest ih => intro l h; exact ih _ (nodup_mapInsert _ _ h)

theorem rlsVisit_tablesFound (ex : RLSExtract) (s : RLSState) (e : Expr) :
    (rlsVisit ex s e).tablesFound =
      (match tableNameOf e with
       | some tn => mapInsert s.tablesFound tn
       | none => s.tablesFound) := by
  unfold rlsVisit
  cases tableNameOf e with
  | none =>
    cases sqlTextOf e with
    | none => rfl
    | some content =>
      simp only [Option.some_bind]
      cases ex.rlsOf content <;> cases ex.policyOf content <;> rfl
  | some tn =>
    cases sqlTextOf e with
    | none => rfl
    | some content =>
      simp only [Option.some_bind]
      cases ex.rlsOf content <;> cases ex.policyOf content <;> rfl

theorem rlsVisit_tablesWithRLS (ex : RLSExtract) (s : RLSState) (e : Expr) :
    (rlsVisit ex s e).tablesWithRLS =
      (match (sqlTextOf e).bind ex.rlsOf with
       | some t => mapInsert s.tablesWithRLS t
       | none => s.tablesWithRLS) := by
  unfold rlsVisit
  cases tableNameOf e with
  | none =>
    cases sqlTextOf e with
    | none => rfl
    | some content =>
      simp only [Option.some_bind]
      cases ex.rlsOf content <;> cases ex.policyOf content <;> rfl
  | some tn =>
    cases sqlTextOf e with
    | none => rfl
    | some content =>
      simp only [Option.some_bind]
      cases ex.rlsOf content <;> cases ex.policyOf content <;> rfl

theorem rlsVisit_tablesWithPolicies (ex : RLSExtract) (s : RLSState) (e : Expr) :
    (rlsVisit ex s e).tablesWithPolicies =
      (match (sqlTextOf e).bind ex.policyOf with
       | some t => mapInsert s.tablesWithPolicies t
       | none => s.tablesWithPolicies) := by
  unfold rlsVisit
  cases tableNameOf e with
  | none =>
    cases sqlTextOf e with
    | none => rfl
    | some content =>
      simp only [Option.some_bind]
      cases ex.rlsOf content <;> cases ex.policyOf content <;> rfl
  | some tn =>
    cases sqlTextOf e with
    | none => rfl
    | some content =>
      simp only [Option.some_bind]
      cases ex.rlsOf content <;> cases ex.policyOf content <;> rfl

theorem foldl_rlsVisit_tablesFound (ex : RLSExtract) :
    ∀ (unit : List Expr) (s : RLSState),
      (unit.foldl (rlsVisit ex) s).tablesFound =
        (tableNamesOf unit).foldl mapInsert s.tablesFound := by
  intro unit
  induction unit with
  | nil => intro s; rfl
  | cons e rest ih =>
    intro s
    simp only [List.foldl_cons, ih, rlsVisit_tablesFound, tableNamesOf,
      List.filterMap_cons]
    cases tableNameOf e <;> simp [List.foldl_cons]

theorem mem_foldl_rlsVisit_rls (ex : RLSExtract) :
    ∀ (unit : List Expr) (s : RLSState) (x : String),
      x ∈ (unit.foldl (rlsVisit ex) s).tablesWithRLS ↔
        x ∈ s.tablesWithRLS ∨ x ∈ rlsNamesOf ex unit := by
  intro unit
  induction unit with
  | nil => intro s x; simp [rlsNamesOf]
  | cons e rest ih =>
    intro s x
    simp only [List.foldl_cons]
    rw [ih, rlsVisit_tablesWithRLS]
    unfold rlsNamesOf
    simp only [List.filterMap_cons]
    cases (sqlTextOf e).bind ex.rlsOf with
    | none => simp [rlsNamesOf]
    | some t =>
      simp only [mem_mapInsert, List.mem_cons, rlsNamesOf]
      tauto

theorem mem_foldl_rlsVisit_policies (ex : RLSExtract) :
    ∀ (unit : List Expr) (s : RLSState) (x : String),
      x ∈ (unit.foldl (rlsVisit ex) s).tablesWithPolicies ↔
        x ∈ s.tablesWithPolicies ∨ x ∈ policyNamesOf ex unit := by
  intro unit
  induction unit with
  | nil => intro s x; simp [policyNamesOf]
  | cons e rest ih =>
    intro s x
    simp only [List.foldl_cons]
    rw [ih, rlsVisit_tablesWithPolicies]
    unfold policyNamesOf
    simp only [List.filterMap_cons]
    cases (sqlTextOf e).bind ex.policyOf with
    | none => simp [policyNamesOf]
    | some t =>
      simp only [mem_mapInsert, List.mem_cons, policyNamesOf]
      tauto

theorem filter_flatMap_list (l : List String) (f : String → List Diag)
    (p : Diag → Bool) :
    (l.flatMap f).filter p = l.flatMap (fun x => (f x).filter p) := by
  induction l with
  | nil => rfl
  | cons a rest ih => simp [List.flatMap_cons, List.filter_append, ih]

theorem rlsVerdict_congr (o : RLSOptions) {r1 r2 p1 p2 : List String}
    (hr : ∀ x, x ∈ r1 ↔ x ∈ r2) (hp : ∀ x, x ∈ p1 ↔ x ∈ p2) (tn : String) :
    rlsVerdict o r1 p1 tn = rlsVerdict o r2 p2 tn := by
  unfold rlsVerdict
  by_cases h1 : tn ∈ r1 <;> by_cases h2 : tn ∈ p1 <;>
    simp [h1, h2, (hr tn).1, (hp tn).1, fun h => (hr tn).2 h, fun h => (hp tn).2 h] <;>
    simp_all [hr tn, hp tn]

theorem filter_diagAbout_verdict_ne (o : RLSOptions) (rls pol : List String)
    (t tn : String) (h : ¬ t = tn) :
    (rlsVerdict o rls pol t).filter (diagAbout tn) = [] := by
  unfold rlsVerdict
  split_ifs <;> simp [diagAbout, h]

theorem filter_diagAbout_verdict_self (o : RLSOptions) (rls pol : List String)
    (tn : String) :
    (rlsVerdict o rls pol tn).filter (diagAbout tn) = rlsVerdict o rls pol tn := by
  unfold rlsVerdict
  split_ifs <;> simp [diagAbout]

theorem flatMap_eq_single (g : String → List Diag) (tn : String)
    (hg : ∀ t, ¬ t = tn → g t = []) :
    ∀ (l : List String), l.Nodup →
      l.flatMap g = (if tn ∈ l then g tn else []) := by
  intro l
  induction l with
  | nil => simp
  | cons a rest ih =>
    intro hnd
    simp only [List.flatMap_cons]
    by_cases ha : a = tn
    · subst ha
      have hnm : ¬ a ∈ rest := (List.nodup_cons.mp hnd).1
      rw [ih (List.nodup_cons.mp hnd).2]
      simp [hnm]
    · have hne : ¬ tn = a := fun h => ha h.symm
      rw [hg a ha, ih (List.nodup_cons.mp hnd).2]
      simp [List.mem_cons, hne]

theorem rlsRun_eq_spec (o : RLSOptions) (ex : RLSExtract) (unit : List Expr) :
    rlsRun o ex unit =
      ((tableNamesOf unit).foldl mapInsert []).flatMap
        (rlsVerdict o (rlsNamesOf ex unit) (policyNamesOf ex unit)) := by
  unfold rlsRun
  have hfin : rlsFinalize o (unit.foldl (rlsVisit ex) ⟨[], [], []⟩) =
      (unit.foldl (rlsVisit ex) ⟨[], [], []⟩).tablesFound.flatMap
        (rlsVerdict o (unit.foldl (rlsVisit ex) ⟨[], [], []⟩).tablesWithRLS
          (unit.foldl (rlsVisit ex) ⟨[], [], []⟩).tablesWithPolicies) := rfl
  rw [hfin, foldl_rlsVisit_tablesFound]
  have hfun : rlsVerdict o (unit.foldl (rlsVisit ex) ⟨[], [], []⟩).tablesWithRLS
      (unit.foldl (rlsVisit ex) ⟨[], [], []⟩).tablesWithPolicies =
      rlsVerdict o (rlsNamesOf ex unit) (policyNamesOf ex unit) := by
    funext tn
    apply rlsVerdict_congr
    · intro x
      rw [mem_foldl_rlsVisit_rls]
      simp
    · intro x
      rw [mem_foldl_rlsVisit_policies]
      simp
  rw [hfun]

theorem rlsRun_filter_spec (o : RLSOptions) (ex : RLSExtract) (unit : List Expr)
    (tn : String) :
    (rlsRun o ex unit).filter (diagAbout tn) =
      if tn ∈ tableNamesOf unit ∧ isSensitiveTable o tn then
        if ¬ tn ∈ rlsNamesOf ex unit then [Diag.missingRLS tn]
        else if ¬ tn ∈ policyNamesOf ex unit then [Diag.missingPolicy tn]
        else []
      else [] := by
  rw [rlsRun_eq_spec, filter_flatMap_list,
    flatMap_eq_single _ tn (fun t ht => filter_diagAbout_verdict_ne o _ _ t tn ht) _
      (nodup_foldl_mapInsert _ _ (by simp)),
    filter_diagAbout_verdict_self]
  have hmem : (tn ∈ (tableNamesOf unit).foldl mapInsert []) ↔ tn ∈ tableNamesOf unit := by
    rw [mem_foldl_mapInsert]; simp
  by_cases h1 : tn ∈ tableNamesOf unit
  · by_cases h2 : isSensitiveTable o tn
    · by_cases h3 : tn ∈ rlsNamesOf ex unit
      · by_cases h4 : tn ∈ policyNamesOf ex unit
        · simp [rlsVerdict, hmem, h1, h2, h3, h4]
        · simp [rlsVerdict, hmem, h1, h2, h3, h4]
      · simp [rlsVerdict, hmem, h1, h2, h3]
    · simp [rlsVerdict, hmem, h1, h2]
  · simp [hmem, h1]

/-- C5: For every table name `tn`: after the whole unit is
traversed, the access-control diagnostics concerning `tn` are exactly
one `missingRLS` when `tn` is declared, sensitive (explicit-list
membership or lowercased-substring pattern match) and not captured by
an enable-row-security statement; exactly one `missingPolicy` when it
is declared, sensitive, captured by enable-row-security but by no
create-policy statement; and none otherwise (non-sensitive tables and
tables in both sets get no diagnostic). -/
theorem rls_per_table_verdict (o : RLSOptions) (ex : RLSExtract)
    (unit : List Expr) (tn : String) :
    (rlsRun o ex unit).filter (diagAbout tn) =
      if tn ∈ tableNamesOf unit ∧ isSensitiveTable o tn then
        if ¬ tn ∈ rlsNamesOf ex unit then [Diag.missingRLS tn]
        else if ¬ tn ∈ policyNamesOf ex unit then [Diag.missingPolicy tn]
        else []
      else [] :=
  rlsRun_filter_spec o ex unit tn

end DrizzleLint
